import Mathlib

/-!
Verification development for the shlink-ab-tests redirect service.

The Python services under `app/services/` are shallowly embedded as Lean
functions:

* `RedirectService.select_ab_variant` (redirect_service.py) — deterministic
  A/B bucketing by a normalized hash;
* `ABTestService` (ab_test_service.py) — probability-sum validation and the
  create/update state machine over A/B test rows;
* `GoogleFormsFieldMapper` (google_forms.py) — TTL-cached field-to-entry-id
  resolution against an external schema service;
* `UrlBuilder` (url_builder.py) — final URL composition;
* `RedirectService.resolve_url` — record resolution by substring match.

Modelling conventions: Python floats are embedded as exact rationals `ℚ`
(the code performs exact comparisons, no tolerance); `datetime` values are
UTC seconds as `ℤ`; Python dicts keyed by strings are association lists with
first-occurrence key order and in-place overwrite, mirroring dict semantics;
the external Google Forms API is an explicit environment
`String → FetchOutcome`; fallible Python code (raising exceptions) returns
`Except` or `Option`.
-/

namespace ShlinkAB

/-- Row of the `ab_tests` table (app/models/ab_test.py): integer primary key,
owning short URL, target URL, probability (float in the code, exact rational
here) and active flag. -/
structure ABTest where
  id : Nat
  shortUrlId : Nat
  targetUrl : String
  probability : ℚ
  isActive : Bool
deriving Repr, DecidableEq

/-- The selection loop of `RedirectService.select_ab_variant`
(redirect_service.py lines 150-155): accumulate `cumulative += probability`
and return the first test with `hash_float < cumulative`. -/
def selectLoop (hashFloat : ℚ) (cumulative : ℚ) : List ABTest → Option ABTest
  | [] => none
  | t :: ts =>
      let c := cumulative + t.probability
      if hashFloat < c then some t else selectLoop hashFloat c ts

/-- Embedding of `RedirectService.select_ab_variant` (redirect_service.py
lines 127-159).  `hashFn` abstracts the normalized MD5 hash
`int(md5(s.encode()).hexdigest()[:8], 16) / 16**8`, applied by the code to
`primary_url + ip_address`; its values always lie in `[0, 1)`. -/
def select_ab_variant (hashFn : String → ℚ) (ipAddress : String)
    (abTests : List ABTest) (primaryUrl : String) : String × Option Nat :=
  if abTests.isEmpty then (primaryUrl, none)
  else
    let hashFloat := hashFn (primaryUrl ++ ipAddress)
    match selectLoop hashFloat 0 abTests with
    | some t => (t.targetUrl, some t.id)
    | none => (primaryUrl, none)

/-- Cumulative probability of the first `n` tests of the list (the value of
`cumulative_prob` after `n` loop iterations). -/
def cumProb (abTests : List ABTest) (n : Nat) : ℚ :=
  ((abTests.take n).map (·.probability)).sum

/-- Payload of `ABTestCreate` (app/schemas.py): the pydantic schema
constrains `probability` to `ge=0.0, le=1.0`; that constraint is carried as
the `opValid` hypothesis below. -/
structure ABTestCreate where
  targetUrl : String
  probability : ℚ
  isActive : Bool
deriving Repr, DecidableEq

/-- Payload of `ABTestUpdate` (app/schemas.py): all fields optional,
`probability` constrained to `ge=0.0, le=1.0` when present. -/
structure ABTestUpdate where
  targetUrl : Option String := none
  probability : Option ℚ := none
  isActive : Option Bool := none
deriving Repr, DecidableEq

/-- Committed database state seen by `ABTestService`: existing short URL ids,
committed `ab_tests` rows, and the primary-key autoincrement counter
(sequences start at 1). -/
structure DBState where
  shortUrls : List Nat
  tests : List ABTest
  nextId : Nat
deriving Repr, DecidableEq

/-- Row filter of `ABTestService.calculate_total_probability`
(ab_test_service.py lines 56-64): same short URL, active, and — only when
`exclude_test_id` is truthy (`if exclude_test_id:`), i.e. neither `None` nor
`0` — a different id. -/
def keepTest (shortUrlId : Nat) (excludeTestId : Option Nat) (t : ABTest) : Bool :=
  t.shortUrlId == shortUrlId && t.isActive &&
    (match excludeTestId with
     | some e => if e == 0 then true else t.id != e
     | none => true)

/-- Embedding of `ABTestService.calculate_total_probability`
(ab_test_service.py lines 43-66): sum of `probability` over the filtered
rows (the `float(result) if result else 0.0` fallback is the empty sum). -/
def calculate_total_probability (s : DBState) (shortUrlId : Nat)
    (excludeTestId : Option Nat) : ℚ :=
  ((s.tests.filter (keepTest shortUrlId excludeTestId)).map (·.probability)).sum

/-- Embedding of `ABTestService.validate_probability_sum`
(ab_test_service.py lines 68-87): fail iff `current_total + new_probability`
strictly exceeds 1.0 under exact comparison.  The function only reads state
and returns `Unit` on success, mirroring the Python method's lack of side
effects. -/
def validate_probability_sum (s : DBState) (shortUrlId : Nat)
    (newProbability : ℚ) (excludeTestId : Option Nat) : Except String Unit :=
  let currentTotal := calculate_total_probability s shortUrlId excludeTestId
  if currentTotal + newProbability > 1 then
    Except.error "ABTestValidationError: total probability would exceed 1.0"
  else
    Except.ok ()

/-- Embedding of `ABTestService.get_test_by_id`. -/
def get_test_by_id (s : DBState) (testId : Nat) : Option ABTest :=
  s.tests.find? (fun t => t.id == testId)

/-- Embedding of `ABTestService.create_test` (ab_test_service.py lines
89-134): reject when the short URL is missing; when the new test is active,
validate the probability sum before committing; on success append the row
with the next autoincrement id. -/
def create_test (s : DBState) (shortUrlId : Nat) (d : ABTestCreate) :
    Except String DBState :=
  if shortUrlId ∈ s.shortUrls then
    match (if d.isActive then validate_probability_sum s shortUrlId d.probability none
           else Except.ok ()) with
    | Except.error e => Except.error e
    | Except.ok _ =>
        Except.ok { s with
          tests := s.tests ++
            [⟨s.nextId, shortUrlId, d.targetUrl, d.probability, d.isActive⟩],
          nextId := s.nextId + 1 }
  else Except.error "ABTestValidationError: short URL not found"

/-- Embedding of `ABTestService.update_test` (ab_test_service.py lines
136-194).  Validations run against the committed state in source order: when
`probability` changes and the test is (or will become) active, validate the
new probability excluding this test; when toggling inactive→active, validate
the (possibly just-updated) probability, again excluding this test.  The
commit replaces the row's mutable fields; a failed validation commits
nothing. -/
def update_test (s : DBState) (testId : Nat) (d : ABTestUpdate) :
    Except String DBState :=
  match get_test_by_id s testId with
  | none => Except.error "ABTestValidationError: test not found"
  | some t =>
    match (match d.probability with
           | some p =>
               if d.isActive.getD t.isActive then
                 validate_probability_sum s t.shortUrlId p (some testId)
               else Except.ok ()
           | none => Except.ok ()) with
    | Except.error e => Except.error e
    | Except.ok _ =>
      match (match d.isActive with
             | some true =>
                 if t.isActive then Except.ok ()
                 else validate_probability_sum s t.shortUrlId
                        (d.probability.getD t.probability) (some testId)
             | _ => Except.ok ()) with
      | Except.error e => Except.error e
      | Except.ok _ =>
          Except.ok { s with tests := s.tests.map (fun u =>
            if u.id == testId then
              { u with
                targetUrl := d.targetUrl.getD t.targetUrl,
                probability := d.probability.getD t.probability,
                isActive := d.isActive.getD t.isActive }
            else u) }

/-- One administrative operation against the A/B test service. -/
inductive AbOp
  | create (shortUrlId : Nat) (data : ABTestCreate)
  | update (testId : Nat) (data : ABTestUpdate)

/-- Apply one operation; errors model `ABTestValidationError`. -/
def applyOp (s : DBState) : AbOp → Except String DBState
  | AbOp.create rid d => create_test s rid d
  | AbOp.update tid d => update_test s tid d

/-- A rejected operation leaves the committed state unchanged (the Python
service raises before `commit`). -/
def runStep (s : DBState) (op : AbOp) : DBState :=
  match applyOp s op with
  | Except.ok s' => s'
  | Except.error _ => s

/-- Run a sequence of operations from a state. -/
def run (s : DBState) (ops : List AbOp) : DBState := ops.foldl runStep s

/-- Fresh database holding the given short URLs and no tests. -/
def initState (shortUrls : List Nat) : DBState := ⟨shortUrls, [], 1⟩

/-- Schema constraint carried by the pydantic models (app/schemas.py):
probabilities lie in [0, 1]. -/
def opValid : AbOp → Prop
  | AbOp.create _ d => 0 ≤ d.probability ∧ d.probability ≤ 1
  | AbOp.update _ d => ∀ p ∈ d.probability, 0 ≤ p ∧ p ≤ 1

/-- Committed sum of active weights of one record. -/
def activeSum (s : DBState) (shortUrlId : Nat) : ℚ :=
  calculate_total_probability s shortUrlId none

/-- Specification-side sum for claim C6: probabilities of the record's
active variants, excluding the excluded variant unconditionally (no
truthiness caveat). -/
def activeSumExcluding (s : DBState) (shortUrlId : Nat) (excl : Option Nat) : ℚ :=
  ((s.tests.filter (fun t => t.shortUrlId == shortUrlId && t.isActive &&
      (match excl with
       | some e => t.id != e
       | none => true))).map (·.probability)).sum

/-- Total of `calculate_total_probability`'s filter over an explicit row
list (used to reason about the sum by list decomposition). -/
def testsTotal (shortUrlId : Nat) (excl : Option Nat) (l : List ABTest) : ℚ :=
  ((l.filter (keepTest shortUrlId excl)).map (·.probability)).sum

/-- Internal well-formedness of the committed database, reflecting the
primary-key discipline (ids are distinct, positive, below the sequence
counter), the pydantic bound on stored probabilities, and the probability
invariant itself. -/
def Inv (s : DBState) : Prop :=
  1 ≤ s.nextId ∧
  (∀ t ∈ s.tests, 0 ≤ t.probability ∧ 1 ≤ t.id ∧ t.id < s.nextId) ∧
  (s.tests.map (·.id)).Nodup ∧
  (∀ rid, activeSum s rid ≤ 1)

/-- Lookup in an association list, first binding wins (Python dict read). -/
def lookupAssoc {κ ν : Type} [BEq κ] : List (κ × ν) → κ → Option ν
  | [], _ => none
  | (k, v) :: rest, key => if k == key then some v else lookupAssoc rest key

/-- Deletion from an association list (Python `del d[key]`; keys are unique
in every state the model builds, as in a dict). -/
def eraseAssoc {κ ν : Type} [BEq κ] : List (κ × ν) → κ → List (κ × ν)
  | [], _ => []
  | (k, v) :: rest, key =>
      if k == key then eraseAssoc rest key else (k, v) :: eraseAssoc rest key

/-- Assignment `d[key] = v` with Python dict semantics: overwrite in place
when the key exists, append otherwise. -/
def insertAssoc {κ ν : Type} [BEq κ] : List (κ × ν) → κ → ν → List (κ × ν)
  | [], key, v => [(key, v)]
  | (k, w) :: rest, key, v =>
      if k == key then (k, v) :: rest else (k, w) :: insertAssoc rest key v

/-- Python `d.update(other)`: assign every binding of `other` in order. -/
def updateAssoc (base other : List (String × String)) : List (String × String) :=
  other.foldl (fun acc kv => insertAssoc acc kv.1 kv.2) base

/-- Python substring test `pat in s` over explicit character lists. -/
def subOf (pat : List Char) : List Char → Bool
  | [] => pat.isEmpty
  | c :: t => pat.isPrefixOf (c :: t) || subOf pat t

/-- Python `pat in s` on strings. -/
def strContains (s pat : String) : Bool := subOf pat.toList s.toList

/-- Python `s.lower()`, at the ASCII level used by the repository's field
names and URLs. -/
def lowerChars (s : String) : List Char := s.toList.map Char.toLower

/-- Match one `%`-free LIKE segment at the front of the target: `_` matches
any single character, every other pattern character matches itself; returns
the remaining target. -/
def wildPrefix : List Char → List Char → Option (List Char)
  | [], s => some s
  | _ :: _, [] => none
  | pc :: ps, c :: cs => if pc == '_' || pc == c then wildPrefix ps cs else none

/-- Leftmost position where a `%`-free segment matches; returns the target
remainder after that match. -/
def findWild (seg : List Char) : List Char → Option (List Char)
  | [] => wildPrefix seg []
  | c :: t =>
      match wildPrefix seg (c :: t) with
      | some r => some r
      | none => findWild seg t

/-- Match the middle segments of a LIKE pattern in order, each at its
leftmost position (leftmost matching is complete here because every segment
has a fixed length). -/
def matchMiddles : List (List Char) → List Char → Option (List Char)
  | [], s => some s
  | seg :: rest, s =>
      match findWild seg s with
      | some r => matchMiddles rest r
      | none => none

/-- A `%`-free segment matches the tail end of the target. -/
def wildSuffixEnd (seg : List Char) (s : List Char) : Bool :=
  decide (seg.length ≤ s.length)
    && (wildPrefix seg (s.drop (s.length - seg.length)) == some [])

/-- SQL LIKE matching of a whole string against a pattern: split the pattern
on `%`; the first segment anchors at the start, the last at the end, the
middle segments occur in order in between; `_` matches any single
character.  There is no escape character — SQLAlchemy's `startswith` and
`icontains` are used with their default `autoescape=False`, so `%` and `_`
in the operand stay live wildcards. -/
def likeMatch (pattern s : List Char) : Bool :=
  match pattern.splitOn '%' with
  | [] => s.isEmpty
  | [seg] => wildPrefix seg s == some []
  | seg0 :: rest =>
      match wildPrefix seg0 s with
      | none => false
      | some s0 =>
          match matchMiddles rest.dropLast s0 with
          | none => false
          | some r => wildSuffixEnd (rest.getLastD []) r

/-- SQLAlchemy `icontains(value)`: `ILIKE '%' || value || '%'` with the
default `autoescape=False` — case-insensitive, and `%`/`_` inside the
user-supplied value act as LIKE wildcards.  Case folding is the
lower-both-sides comparison ILIKE performs. -/
def icontainsStr (s value : String) : Bool :=
  likeMatch ('%' :: lowerChars value ++ ['%']) (lowerChars s)

/-- SQLAlchemy `startswith(start)`: `LIKE start || '%'` with the default
`autoescape=False` — case-sensitive, `%`/`_` inside the operand act as LIKE
wildcards. -/
def startsWithStr (s start : String) : Bool :=
  likeMatch (start.toList ++ ['%']) s.toList

/-- Python `s.rstrip("/")`. -/
def rstripSlash (s : String) : String :=
  ((s.toList.reverse.dropWhile (fun c => c == '/')).reverse).asString

/-- Row of the `short_urls` table fields used by `RedirectService`. -/
structure ShortUrl where
  id : Nat
  shortCode : String
  originalUrl : String
  domainId : Option Nat
deriving Repr, DecidableEq

/-- Filter of `RedirectService.resolve_url` (redirect_service.py lines
41-49): `original_url.startswith(app_url)` (after `rstrip("/")`) and
`original_url.icontains(url)` — both SQL LIKE patterns with live `%`/`_`
wildcards, the latter case-insensitive — and the domain filter (`IS NULL`
when no domain id is given, equality otherwise). -/
def matchesResolve (appUrl : String) (url : String) (domainId : Option Nat)
    (r : ShortUrl) : Bool :=
  startsWithStr r.originalUrl (rstripSlash appUrl) && icontainsStr r.originalUrl url &&
    (match domainId with
     | some d => r.domainId == some d
     | none => r.domainId == none)

/-- Embedding of `RedirectService.resolve_url` (redirect_service.py lines
24-58): `scalar_one_or_none` yields the single match, `none` on zero
matches, and raises `MultipleResultsFound` (the error case) on several.
The function only reads the record list. -/
def resolve_url (db : List ShortUrl) (appUrl : String) (url : String)
    (domainId : Option Nat) : Except String (Option ShortUrl) :=
  match db.filter (matchesResolve appUrl url domainId) with
  | [] => Except.ok none
  | [r] => Except.ok (some r)
  | _ => Except.error "MultipleResultsFound"

/-- One question item of a fetched Google Form: title, description and the
question id nested under `questionItem.question.questionId` (absent levels
collapse to `none`; `item.get("title", "")` defaults model missing text
fields as `""`). -/
structure FormItem where
  title : String
  description : String
  questionId : Option String
deriving Repr, DecidableEq

/-- Body of a successful Google Forms API `forms.get` response (the part the
code reads). -/
structure FormData where
  items : List FormItem
deriving Repr, DecidableEq

/-- Outcome of one external `forms.get` call: success, `HttpError`, or any
other exception. -/
inductive FetchOutcome
  | success (form : FormData)
  | httpError
  | otherError
deriving Repr, DecidableEq

/-- Mutable state of `GoogleFormsFieldMapper` (google_forms.py lines 24-40):
the field-entry cache `(form_id, field_name) -> (entry_id, timestamp)`, the
raw form cache `form_id -> (form_data, timestamp)`, and the two TTLs.
Times are UTC seconds. -/
structure MapperState where
  cache : List ((String × String) × (String × Int))
  formCache : List (String × (FormData × Int))
  cacheTtl : Int
  formCacheTtl : Int
deriving Repr, DecidableEq

/-- State after `__init__`: empty caches, `cache_ttl = timedelta(minutes=15)`
and `form_cache_ttl = timedelta(minutes=2)`, in seconds. -/
def initMapperState : MapperState := ⟨[], [], 15 * 60, 2 * 60⟩

/-- Fetch branch of `GoogleFormsFieldMapper._get_form` (google_forms.py
lines 71-83): on success cache and return the form; every failure of the
external call is caught, logged and turned into `none` — nothing
propagates. -/
def fetchForm (env : String → FetchOutcome) (now : Int) (s : MapperState)
    (formId : String) : Option FormData × MapperState :=
  match env formId with
  | FetchOutcome.success d =>
      (some d, { s with formCache := insertAssoc s.formCache formId (d, now) })
  | FetchOutcome.httpError => (none, s)
  | FetchOutcome.otherError => (none, s)

/-- Embedding of `GoogleFormsFieldMapper._get_form` (google_forms.py lines
58-83): serve a cache entry younger than the form TTL; evict a stale entry
and refetch. -/
def getForm (env : String → FetchOutcome) (now : Int) (s : MapperState)
    (formId : String) : Option FormData × MapperState :=
  match lookupAssoc s.formCache formId with
  | some (formData, timestamp) =>
      if now - timestamp ≤ s.formCacheTtl then (some formData, s)
      else fetchForm env now { s with formCache := eraseAssoc s.formCache formId } formId
  | none => fetchForm env now s formId

/-- Match test of the scan in `_fetch_field_entry_id` (google_forms.py line
142): the lowercased field name occurs in the lowercased title or the
lowercased description. -/
def matchesField (fieldName : String) (it : FormItem) : Bool :=
  subOf (lowerChars fieldName) (lowerChars it.title)
    || subOf (lowerChars fieldName) (lowerChars it.description)

/-- The item scan of `_fetch_field_entry_id` (google_forms.py lines
138-153): return `"entry." ++ questionId` of the first matching item with a
truthy question id; a matching item without one is passed over. -/
def findEntry (items : List FormItem) (fieldName : String) : Option String :=
  match items with
  | [] => none
  | it :: rest =>
      if matchesField fieldName it then
        match it.questionId with
        | some qid =>
            if qid == "" then findEntry rest fieldName
            else some ("entry." ++ qid)
        | none => findEntry rest fieldName
      else findEntry rest fieldName

/-- Specification-side lookup for claim C10, written from the claim's words:
the question id (prefixed with `"entry."`) of the first item whose title or
description contains the lowercased field name as a substring, skipping
items without a (truthy) question id; `none` when no item matches. -/
def fieldLookupSpec (items : List FormItem) (fieldName : String) : Option String :=
  (items.find? (fun it => matchesField fieldName it &&
      (match it.questionId with
       | some q => !(q == "")
       | none => false))).bind
    (fun it => it.questionId.map (fun q => "entry." ++ q))

/-- Embedding of `GoogleFormsFieldMapper._fetch_field_entry_id`
(google_forms.py lines 120-153). -/
def fetch_field_entry_id (env : String → FetchOutcome) (now : Int)
    (s : MapperState) (formId fieldName : String) :
    Option String × MapperState :=
  match getForm env now s formId with
  | (none, s') => (none, s')
  | (some form, s') => (findEntry form.items fieldName, s')

/-- Cache-miss path of `get_field_entry_id` (google_forms.py lines 110-115):
fetch, and cache a found entry id at the current time. -/
def fetchAndCacheEntry (env : String → FetchOutcome) (now : Int)
    (s : MapperState) (formId fieldName : String) :
    Option String × MapperState :=
  match fetch_field_entry_id env now s formId fieldName with
  | (some e, s') =>
      (some e, { s' with cache := insertAssoc s'.cache (formId, fieldName) (e, now) })
  | (none, s') => (none, s')

/-- Embedding of `GoogleFormsFieldMapper.get_field_entry_id`
(google_forms.py lines 85-115): serve a cache entry whose age is at most the
TTL; delete a stale entry and fall through to the fetch path. -/
def get_field_entry_id (env : String → FetchOutcome) (now : Int)
    (s : MapperState) (formId fieldName : String) :
    Option String × MapperState :=
  match lookupAssoc s.cache (formId, fieldName) with
  | some (entryId, timestamp) =>
      if now - timestamp ≤ s.cacheTtl then (some entryId, s)
      else fetchAndCacheEntry env now
        { s with cache := eraseAssoc s.cache (formId, fieldName) } formId fieldName
  | none => fetchAndCacheEntry env now s formId fieldName

/-- Embedding of `GoogleFormsFieldMapper.is_form_accessible` (google_forms.py
lines 117-118): truthiness of the fetched form object (a successful
`forms.get` response is a non-empty dict). -/
def is_form_accessible (env : String → FetchOutcome) (now : Int)
    (s : MapperState) (formId : String) : Bool × MapperState :=
  match getForm env now s formId with
  | (some _, s') => (true, s')
  | (none, s') => (false, s')

/-- Character class `[a-zA-Z0-9_-]` of the two form-id regexes
(url_builder.py lines 191-194). -/
def formIdChar (c : Char) : Bool :=
  ('a' ≤ c && c ≤ 'z') || ('A' ≤ c && c ≤ 'Z') || ('0' ≤ c && c ≤ '9')
    || c == '_' || c == '-'

/-- Strip a literal from the front of a character list (`none` when it is
not there). -/
def afterLit : List Char → List Char → Option (List Char)
  | [], s => some s
  | _ :: _, [] => none
  | l :: ls, c :: cs => if c == l then afterLit ls cs else none

/-- `re.search` of a pattern `lit([a-zA-Z0-9_-]+)`: at the leftmost position
where the literal matches and at least one class character follows, capture
the maximal class run; otherwise advance one character. -/
def searchIdPattern (lit : List Char) (s : List Char) : Option (List Char) :=
  match s with
  | [] =>
      match afterLit lit [] with
      | some rest =>
          let run := rest.takeWhile formIdChar
          if run.isEmpty then none else some run
      | none => none
  | c :: cs =>
      match afterLit lit (c :: cs) with
      | some rest =>
          let run := rest.takeWhile formIdChar
          if run.isEmpty then searchIdPattern lit cs else some run
      | none => searchIdPattern lit cs

/-- Embedding of `UrlBuilder.extract_form_id` (url_builder.py lines
176-205): an empty URL is falsy; then the long-form pattern `/d/e/(...)` is
tried before the short pattern `/d/(...)`. -/
def extract_form_id (url : String) : Option String :=
  if url.isEmpty then none
  else
    match searchIdPattern "/d/e/".toList url.toList with
    | some run => some run.asString
    | none =>
        match searchIdPattern "/d/".toList url.toList with
        | some run => some run.asString
        | none => none

/-- Row of the `visits` table as used by the builder: id and visit time.
`date` is UTC seconds; a naive stored timestamp is read as UTC, which is
exactly what `replace(tzinfo=timezone.utc)` does
(url_builder.py lines 219-222). -/
structure Visit where
  id : Nat
  date : Int
deriving Repr, DecidableEq

/-- Default of `Settings.click_id_max_age_seconds` (app/config.py line
36). -/
def click_id_max_age_seconds : Int := 60

/-- Embedding of `UrlBuilder.should_include_click_id` (url_builder.py lines
207-227): include iff `now - last_visit_date <= max_age`. -/
def should_include_click_id (now : Int) (lastVisit : Visit) : Bool :=
  now - lastVisit.date ≤ click_id_max_age_seconds

/-- Split a character list at the first occurrence of a separator. -/
def splitFirst (sep : Char) : List Char → Option (List Char × List Char)
  | [] => none
  | c :: rest =>
      if c == sep then some ([], rest)
      else
        match splitFirst sep rest with
        | some (a, b) => some (c :: a, b)
        | none => none

/-- The dict `{k: v[0] for k, v in parse_qs(query).items()}` of
url_builder.py lines 46-47: split the query on `&`, each piece at its first
`=`; pieces without `=` or with an empty value are dropped
(`keep_blank_values` is off); the first value of each key wins and keys keep
first-occurrence order.  Percent-decoding is not modelled (no encoded input
is involved in the claims). -/
def parseQsFirst (q : List Char) : List (String × String) :=
  (q.splitOn '&').foldl (fun acc piece =>
    match splitFirst '=' piece with
    | some (name, value) =>
        if value.isEmpty then acc
        else if (lookupAssoc acc name.asString).isSome then acc
        else acc ++ [(name.asString, value.asString)]
    | none => acc) []

/-- `urlencode(final_params)` (url_builder.py line 60), without
percent-escaping (no claim involves characters needing escapes). -/
def urlencodeParams (ps : List (String × String)) : String :=
  String.intercalate "&" (ps.map (fun kv => kv.1 ++ "=" ++ kv.2))

/-- The observable interface of the process-wide `GoogleFormsFieldMapper`
singleton during one request, as `UrlBuilder._add_google_forms_params` uses
it.  `mapperOf` below realizes it from the stateful model. -/
structure FormsMapperApi where
  isFormAccessible : String → Bool
  getFieldEntryId : String → String → Option String

/-- The mapper interface observed from one mapper state and fetch
environment. -/
def mapperOf (env : String → FetchOutcome) (now : Int) (s : MapperState) :
    FormsMapperApi :=
  { isFormAccessible := fun formId => (is_form_accessible env now s formId).1,
    getFieldEntryId := fun formId fieldName =>
      (get_field_entry_id env now s formId fieldName).1 }

/-- Row of the `google_forms` table used by the builder: the edit-form id
used for API calls and the public responder-form id. -/
structure GoogleForm where
  formId : String
  responderFormId : String
deriving Repr, DecidableEq

/-- The `select(GoogleForm).where(responder_form_id == ...)` lookup of
url_builder.py lines 104-108 (the column is unique). -/
def lookupGoogleForm (forms : List GoogleForm) (responderFormId : String) :
    Option GoogleForm :=
  forms.find? (fun g => g.responderFormId == responderFormId)

/-- One `utm_*` block of `_add_google_forms_params` (url_builder.py lines
131-155): when the name is present in the request parameters, resolve an
entry id; on success assign `params["entry." + entry_id]`; in either case
delete the name from the request-parameter dict. -/
def mapUtmParam (mapper : FormsMapperApi) (formId : String) (name : String)
    (pq : List (String × String) × List (String × String)) :
    List (String × String) × List (String × String) :=
  match lookupAssoc pq.2 name with
  | some v =>
      (match mapper.getFieldEntryId formId name with
       | some entryId => insertAssoc pq.1 ("entry." ++ entryId) v
       | none => pq.1,
       eraseAssoc pq.2 name)
  | none => pq

/-- The click-id block of `_add_google_forms_params` (url_builder.py lines
157-167): when a last visit exists and falls inside the click-id window,
resolve `click_id` and `click_timestamp` entry ids and assign
`params["entry." + entry_id]` for each that resolves; the request-parameter
dict is untouched.  `str(last_visit.date)` is rendered as the decimal of its
UTC seconds. -/
def addClickParams (mapper : FormsMapperApi) (formId : String)
    (pq : List (String × String) × List (String × String))
    (lastVisit : Option Visit) (now : Int) :
    List (String × String) × List (String × String) :=
  match lastVisit with
  | some v =>
      if should_include_click_id now v then
        let ps :=
          match mapper.getFieldEntryId formId "click_id" with
          | some e => insertAssoc pq.1 ("entry." ++ e) (toString v.id)
          | none => pq.1
        let ps2 :=
          match mapper.getFieldEntryId formId "click_timestamp" with
          | some e => insertAssoc ps ("entry." ++ e) (toString v.date)
          | none => ps
        (ps2, pq.2)
      else pq
  | none => pq

/-- Embedding of `UrlBuilder._add_google_forms_params` (url_builder.py lines
74-174).  Fail-open is structural here: extraction failure, an unregistered
form, or an inaccessible form return the parameters unchanged; the mapper
functions are total, so the `except` fallback (return `params` unchanged)
has no reachable trigger in the model. -/
def add_google_forms_params (mapper : FormsMapperApi)
    (forms : List GoogleForm) (targetUrl : String)
    (params queryParams : List (String × String))
    (lastVisit : Option Visit) (now : Int) :
    List (String × String) × List (String × String) :=
  match extract_form_id targetUrl with
  | none => (params, queryParams)
  | some responderFormId =>
    match lookupGoogleForm forms responderFormId with
    | none => (params, queryParams)
    | some googleForm =>
        if mapper.isFormAccessible googleForm.formId then
          let pq := mapUtmParam mapper googleForm.formId "utm_source"
            (params, queryParams)
          let pq := mapUtmParam mapper googleForm.formId "utm_medium" pq
          let pq := mapUtmParam mapper googleForm.formId "utm_campaign" pq
          addClickParams mapper googleForm.formId pq lastVisit now
        else (params, queryParams)

/-- The final-parameter pipeline of `UrlBuilder.build_url` (url_builder.py
lines 43-57): parameters parsed from the target URL, overwritten by the
forwarded request parameters when `forward_query` is on and the dict is
non-empty, then the Google-Forms branch when enabled, the target contains
`docs.google.com/forms`, and a database session is present. -/
def buildParams (mapper : FormsMapperApi) (forms : List GoogleForm)
    (targetUrl : String) (forwardQuery : Bool)
    (queryParams : List (String × String)) (lastVisit : Option Visit)
    (includeFormParams : Bool) (hasDb : Bool) (now : Int) :
    List (String × String) :=
  let existingParams :=
    match splitFirst '#' targetUrl.toList with
    | some (beforeFrag, _) =>
        (match splitFirst '?' beforeFrag with
         | some (_, q) => parseQsFirst q
         | none => [])
    | none =>
        (match splitFirst '?' targetUrl.toList with
         | some (_, q) => parseQsFirst q
         | none => [])
  let finalParams :=
    if forwardQuery && !queryParams.isEmpty then
      updateAssoc existingParams queryParams
    else existingParams
  if includeFormParams && strContains targetUrl "docs.google.com/forms" && hasDb then
    (add_google_forms_params mapper forms targetUrl finalParams queryParams
      lastVisit now).1
  else finalParams

/-- Embedding of `UrlBuilder.build_url` (url_builder.py lines 20-72):
`urlunparse` re-assembles the pre-query part, the re-encoded parameters, and
the fragment (`?`/`#` are emitted only for non-empty components). -/
def build_url (mapper : FormsMapperApi) (forms : List GoogleForm)
    (targetUrl : String) (forwardQuery : Bool)
    (queryParams : List (String × String)) (lastVisit : Option Visit)
    (includeFormParams : Bool) (hasDb : Bool) (now : Int) : String :=
  let (beforeFrag, frag) :=
    match splitFirst '#' targetUrl.toList with
    | some (a, b) => (a, some b)
    | none => (targetUrl.toList, none)
  let pre :=
    match splitFirst '?' beforeFrag with
    | some (a, _) => a
    | none => beforeFrag
  let newQuery := urlencodeParams
    (buildParams mapper forms targetUrl forwardQuery queryParams lastVisit
      includeFormParams hasDb now)
  pre.asString
    ++ (if newQuery == "" then "" else "?" ++ newQuery)
    ++ (match frag with
        | some f => if f.isEmpty then "" else "#" ++ f.asString
        | none => "")

theorem cumProb_nil (n : Nat) : cumProb [] n = 0 := by
  simp [cumProb]

theorem cumProb_cons (t : ABTest) (ts : List ABTest) (n : Nat) :
    cumProb (t :: ts) (n + 1) = t.probability + cumProb ts n := by
  simp [cumProb]

theorem selectLoop_eq_none (h c : ℚ) (l : List ABTest)
    (hall : ∀ n < l.length, c + cumProb l (n + 1) ≤ h) :
    selectLoop h c l = none := by
  induction l generalizing c with
  | nil => rfl
  | cons u us ih =>
      have h0 := hall 0 (by simp)
      rw [cumProb_cons] at h0
      simp only [cumProb, List.take_zero, List.map_nil, List.sum_nil,
        add_zero] at h0
      have hnotlt : ¬ h < c + u.probability := not_lt.mpr h0
      simp only [selectLoop, hnotlt, if_false]
      apply ih
      intro n hn
      have := hall (n + 1) (by simpa using Nat.succ_lt_succ hn)
      rw [cumProb_cons] at this
      linarith [this]

theorem selectLoop_eq_get (h c : ℚ) (l : List ABTest) (i : Nat)
    (hi : i < l.length) (hlt : h < c + cumProb l (i + 1))
    (hmin : ∀ j < i, c + cumProb l (j + 1) ≤ h) :
    selectLoop h c l = some (l.get ⟨i, hi⟩) := by
  induction l generalizing c i with
  | nil => exact absurd hi (by simp)
  | cons u us ih =>
      cases i with
      | zero =>
          rw [cumProb_cons, cumProb] at hlt
          simp only [List.take_zero, List.map_nil, List.sum_nil,
            add_zero] at hlt
          have : h < c + u.probability := by linarith
          simp [selectLoop, this]
      | succ i =>
          have h0 := hmin 0 (Nat.succ_pos i)
          rw [cumProb_cons, cumProb] at h0
          simp only [List.take_zero, List.map_nil, List.sum_nil,
            add_zero] at h0
          have hnotlt : ¬ h < c + u.probability := not_lt.mpr (by linarith)
          simp only [selectLoop, hnotlt, if_false]
          have hi' : i < us.length := by simpa using Nat.lt_of_succ_lt_succ hi
          have hlt' : h < (c + u.probability) + cumProb us (i + 1) := by
            rw [cumProb_cons] at hlt; linarith
          have hmin' : ∀ j < i, (c + u.probability) + cumProb us (j + 1) ≤ h := by
            intro j hj
            have := hmin (j + 1) (Nat.succ_lt_succ hj)
            rw [cumProb_cons] at this; linarith
          simpa using ih (c + u.probability) i hi' hlt' hmin'

/-- C1: for active variants in presented (ascending-creation) order and a
normalized hash value h in [0,1), `select_ab_variant` returns the first
variant whose cumulative weight strictly exceeds h; if the walk exhausts all
variants it returns the primary destination with no variant id; the empty
list yields the primary; for the single variant (id 1, weight 0.5), hash 0.3
selects variant 1 and hash 0.7 selects the primary. -/
theorem c1_select_ab_variant_bucket_walk
    (hashFn : String → ℚ) (ip primary : String) (tests : List ABTest)
    (h : ℚ) (hfn : hashFn (primary ++ ip) = h) (h0 : 0 ≤ h) (h1 : h < 1) :
    (tests = [] → select_ab_variant hashFn ip tests primary = (primary, none)) ∧
    (∀ i (hi : i < tests.length), h < cumProb tests (i + 1) →
        (∀ j < i, cumProb tests (j + 1) ≤ h) →
        select_ab_variant hashFn ip tests primary
          = ((tests.get ⟨i, hi⟩).targetUrl, some (tests.get ⟨i, hi⟩).id)) ∧
    ((∀ n < tests.length, cumProb tests (n + 1) ≤ h) →
        select_ab_variant hashFn ip tests primary = (primary, none)) ∧
    select_ab_variant (fun _ => (3 : ℚ)/10) "ip" [⟨1, 7, "variant", 1/2, true⟩]
        "primary" = ("variant", some 1) ∧
    select_ab_variant (fun _ => (7 : ℚ)/10) "ip" [⟨1, 7, "variant", 1/2, true⟩]
        "primary" = ("primary", none) := by
  refine ⟨?_, ?_, ?_, ?_, ?_⟩
  · intro he; subst he; rfl
  · intro i hi hlt hmin
    have hne : tests.isEmpty = false := by
      cases tests with
      | nil => simp at hi
      | cons a l => rfl
    have hsel := selectLoop_eq_get h 0 tests i hi (by simpa using hlt)
      (by intro j hj; simpa using hmin j hj)
    simp [select_ab_variant, hne, hfn, hsel]
  · intro hall
    by_cases he : tests = []
    · subst he; rfl
    · have hne : tests.isEmpty = false := by
        cases tests with
        | nil => exact absurd rfl he
        | cons a l => rfl
      have hsel := selectLoop_eq_none h 0 tests
        (by intro n hn; simpa using hall n hn)
      simp [select_ab_variant, hne, hfn, hsel]
  · norm_num [select_ab_variant, selectLoop]
  · norm_num [select_ab_variant, selectLoop]

/-- Witness for C1 at a concrete input: the empty variant list yields the
primary destination with no variant id. -/
theorem c1_select_ab_variant_bucket_walk_witness :
    select_ab_variant (fun _ => (0 : ℚ)) "ip" [] "primary" = ("primary", none) :=
  (c1_select_ab_variant_bucket_walk (fun _ => (0 : ℚ)) "ip" "primary" [] 0 rfl
    (le_refl 0) zero_lt_one).1 rfl

/-- C3: selection is a deterministic function of
(visitor key, primary destination, ordered variant set): it reads no hidden
state, and its result depends on the hash function only through the digest of
`primary ++ ip` — so two runs on identical inputs return the identical pair. -/
theorem c3_select_ab_variant_deterministic
    (hashFn hashFn' : String → ℚ) (ip primary : String) (tests : List ABTest)
    (hact : ∀ t ∈ tests, t.isActive = true)
    (hsum : (tests.map (·.probability)).sum ≤ 1)
    (hagree : hashFn (primary ++ ip) = hashFn' (primary ++ ip)) :
    select_ab_variant hashFn ip tests primary
      = select_ab_variant hashFn' ip tests primary := by
  simp only [select_ab_variant, hagree]

/-- Witness for C3 at a concrete input. -/
theorem c3_select_ab_variant_deterministic_witness :
    select_ab_variant (fun _ => (0 : ℚ)) "ip" [⟨1, 7, "variant", 1, true⟩] "primary"
      = select_ab_variant (fun s => (0 : ℚ) * s.length) "ip"
          [⟨1, 7, "variant", 1, true⟩] "primary" :=
  c3_select_ab_variant_deterministic _ _ "ip" "primary" _
    (by simp) (by simp) (by simp)

theorem calc_eq_testsTotal (s : DBState) (rid : Nat) (excl : Option Nat) :
    calculate_total_probability s rid excl = testsTotal rid excl s.tests := rfl

theorem testsTotal_nil (rid : Nat) (excl : Option Nat) :
    testsTotal rid excl [] = 0 := rfl

theorem testsTotal_cons (rid : Nat) (excl : Option Nat) (t : ABTest)
    (l : List ABTest) :
    testsTotal rid excl (t :: l)
      = (if keepTest rid excl t then t.probability else 0) + testsTotal rid excl l := by
  simp only [testsTotal, List.filter_cons]
  split
  · simp
  · simp

theorem testsTotal_append (rid : Nat) (excl : Option Nat) (l₁ l₂ : List ABTest) :
    testsTotal rid excl (l₁ ++ l₂) = testsTotal rid excl l₁ + testsTotal rid excl l₂ := by
  simp [testsTotal]

theorem keepTest_some_of_ne {e : Nat} (rid : Nat) (t : ABTest)
    (he : e ≠ 0) (ht : t.id ≠ e) :
    keepTest rid (some e) t = keepTest rid none t := by
  simp only [keepTest]
  have h1 : (e == 0) = false := by simpa using he
  have h2 : (t.id != e) = true := by simpa using ht
  rw [h1, h2]
  simp

theorem testsTotal_excl_of_not_mem {e : Nat} (rid : Nat) (l : List ABTest)
    (he : e ≠ 0) (hl : ∀ u ∈ l, u.id ≠ e) :
    testsTotal rid (some e) l = testsTotal rid none l := by
  induction l with
  | nil => rfl
  | cons u us ih =>
      rw [testsTotal_cons, testsTotal_cons,
        keepTest_some_of_ne rid u he (hl u (by simp)),
        ih (fun v hv => hl v (by simp [hv]))]

theorem testsTotal_nonneg (rid : Nat) (excl : Option Nat) (l : List ABTest)
    (h : ∀ t ∈ l, 0 ≤ t.probability) : 0 ≤ testsTotal rid excl l := by
  apply List.sum_nonneg
  intro x hx
  obtain ⟨t, ht, rfl⟩ := List.mem_map.mp hx
  exact h t (List.mem_of_mem_filter ht)

theorem validate_ok_le {s : DBState} {rid : Nat} {p : ℚ} {excl : Option Nat}
    {u : Unit} (h : validate_probability_sum s rid p excl = Except.ok u) :
    calculate_total_probability s rid excl + p ≤ 1 := by
  unfold validate_probability_sum at h
  simp only [] at h
  split at h
  · cases h
  · next hc => exact le_of_not_lt hc

theorem find?_decomp {α : Type} {p : α → Bool} {l : List α} {a : α}
    (h : l.find? p = some a) :
    ∃ l₁ l₂, l = l₁ ++ a :: l₂ ∧ ∀ u ∈ l₁, p u = false := by
  induction l with
  | nil => simp at h
  | cons x xs ih =>
      by_cases hpx : p x = true
      · rw [List.find?_cons_of_pos _ hpx] at h
        cases h
        exact ⟨[], xs, rfl, by simp⟩
      · rw [List.find?_cons_of_neg _ (by simpa using hpx)] at h
        obtain ⟨l₁, l₂, rfl, hall⟩ := ih h
        refine ⟨x :: l₁, l₂, rfl, ?_⟩
        intro u hu
        rcases List.mem_cons.mp hu with rfl | hu'
        · simpa using hpx
        · exact hall u hu'

theorem map_update_of_none {f : ABTest → ABTest} {tid : Nat} {l : List ABTest}
    (h : ∀ u ∈ l, (u.id == tid) = false) :
    l.map (fun u => if u.id == tid then f u else u) = l := by
  induction l with
  | nil => rfl
  | cons x xs ih =>
      simp only [List.map_cons, h x (by simp), Bool.false_eq_true, if_false,
        List.cons.injEq, true_and]
      exact ih (fun u hu => h u (by simp [hu]))

theorem inv_create {s s' : DBState} {rid : Nat} {d : ABTestCreate}
    (hInv : Inv s) (hv : 0 ≤ d.probability)
    (h : create_test s rid d = Except.ok s') : Inv s' := by
  obtain ⟨h1, h2, h3, h4⟩ := hInv
  unfold create_test at h
  split at h
  · split at h
    · cases h
    · next val heq =>
        injection h with h'
        subst h'
        refine ⟨by simp, ?_, ?_, ?_⟩
        · intro t ht
          rcases List.mem_append.mp ht with hold | hnew
          · obtain ⟨hp, hlo, hhi⟩ := h2 t hold
            exact ⟨hp, hlo, by simp; omega⟩
          · rcases List.mem_singleton.mp hnew with rfl
            exact ⟨hv, by simpa using h1, by simp⟩
        · simp only [List.map_append, List.map_cons, List.map_nil]
          refine List.Nodup.append h3 (List.nodup_singleton _) ?_
          intro a ha hb
          simp only [List.mem_singleton] at hb
          subst hb
          obtain ⟨t, ht, hta⟩ := List.mem_map.mp ha
          exact absurd hta (Nat.ne_of_lt (h2 t ht).2.2)
        · intro rid'
          have hdec : activeSum ⟨s.shortUrls,
              s.tests ++ [⟨s.nextId, rid, d.targetUrl, d.probability, d.isActive⟩],
              s.nextId + 1⟩ rid'
              = testsTotal rid' none s.tests
                + (if keepTest rid' none
                      ⟨s.nextId, rid, d.targetUrl, d.probability, d.isActive⟩
                    then d.probability else 0) := by
            rw [activeSum, calc_eq_testsTotal]
            show testsTotal rid' none (s.tests ++ [_]) = _
            rw [testsTotal_append, testsTotal_cons, testsTotal_nil]
            ring
          rw [hdec]
          by_cases hk : keepTest rid' none
              ⟨s.nextId, rid, d.targetUrl, d.probability, d.isActive⟩ = true
          · have hkt := hk
            simp only [keepTest, Bool.and_true, Bool.and_eq_true, beq_iff_eq] at hkt
            obtain ⟨hr, hact⟩ := hkt
            subst hr
            rw [hact] at heq
            simp only [if_true] at heq
            have hle := validate_ok_le heq
            rw [calc_eq_testsTotal] at hle
            simpa [hk] using hle
          · have hk' : keepTest rid' none
                ⟨s.nextId, rid, d.targetUrl, d.probability, d.isActive⟩ = false :=
              Bool.eq_false_iff.mpr hk
            rw [hk']
            simp only [Bool.false_eq_true, if_false, add_zero]
            have := h4 rid'
            rwa [activeSum, calc_eq_testsTotal] at this
  · cases h

theorem sum_bound_of_replace {l₁ l₂ : List ABTest} {t tn : ABTest} {rid : Nat}
    (hshort : tn.shortUrlId = t.shortUrlId)
    (hnn : ∀ u ∈ l₁ ++ t :: l₂, 0 ≤ u.probability)
    (hold : testsTotal rid none (l₁ ++ t :: l₂) ≤ 1)
    (hok : tn.isActive = true → rid = t.shortUrlId →
      testsTotal rid none l₁ + testsTotal rid none l₂ + tn.probability ≤ 1) :
    testsTotal rid none (l₁ ++ tn :: l₂) ≤ 1 := by
  rw [testsTotal_append, testsTotal_cons] at hold ⊢
  by_cases hk : keepTest rid none tn = true
  · have hkt := hk
    simp only [keepTest, Bool.and_true, Bool.and_eq_true, beq_iff_eq] at hkt
    obtain ⟨hr, hact⟩ := hkt
    have := hok hact (by rw [← hshort, hr])
    rw [hk]
    simp only [if_true]
    linarith
  · rw [Bool.eq_false_iff.mpr hk]
    simp only [Bool.false_eq_true, if_false, add_zero]
    have hct : (0 : ℚ) ≤ (if keepTest rid none t then t.probability else 0) := by
      split
      · exact hnn t (by simp)
      · exact le_refl 0
    linarith

theorem inv_update {s s' : DBState} {tid : Nat} {d : ABTestUpdate}
    (hInv : Inv s) (hv : ∀ p ∈ d.probability, 0 ≤ p)
    (h : update_test s tid d = Except.ok s') : Inv s' := by
  obtain ⟨h1, h2, h3, h4⟩ := hInv
  unfold update_test at h
  split at h
  · cases h
  · rename_i t hfd
    have htmem : t ∈ s.tests := List.mem_of_find?_eq_some hfd
    have htid : t.id = tid := by simpa using List.find?_some hfd
    have htid0 : tid ≠ 0 := by
      have := (h2 t htmem).2.1
      omega
    obtain ⟨l₁, l₂, hsl, hl₁⟩ := find?_decomp hfd
    have hnds : ((l₁ ++ t :: l₂).map (·.id)).Nodup := hsl ▸ h3
    have hl₂ : ∀ u ∈ l₂, (u.id == tid) = false := by
      intro u hu
      rw [List.map_append, List.map_cons] at hnds
      have hcons : ((t.id :: l₂.map (·.id))).Nodup := (List.Nodup.of_append_right hnds)
      have : t.id ∉ l₂.map (·.id) := (List.nodup_cons.mp hcons).1
      have hne : u.id ≠ t.id := by
        intro hcontr
        exact this (hcontr ▸ List.mem_map_of_mem (·.id) hu)
      simpa [htid] using fun hc => hne (by omega)
    have hl₁ne : ∀ u ∈ l₁, u.id ≠ tid := by
      intro u hu
      have := hl₁ u hu
      simpa using this
    have hl₂ne : ∀ u ∈ l₂, u.id ≠ tid := by
      intro u hu
      have := hl₂ u hu
      simpa using this
    -- the committed row after the update
    set tn : ABTest := { t with
      targetUrl := d.targetUrl.getD t.targetUrl,
      probability := d.probability.getD t.probability,
      isActive := d.isActive.getD t.isActive } with htn
    have hmap : s.tests.map (fun u =>
        if u.id == tid then
          { u with
            targetUrl := d.targetUrl.getD t.targetUrl,
            probability := d.probability.getD t.probability,
            isActive := d.isActive.getD t.isActive }
        else u) = l₁ ++ tn :: l₂ := by
      rw [hsl, List.map_append, List.map_cons]
      rw [map_update_of_none hl₁, map_update_of_none hl₂]
      have : (t.id == tid) = true := by simpa using htid
      rw [this]
      simp
    -- exclusion total over the committed state equals the sum without t
    have hexcl : ∀ rid, calculate_total_probability s rid (some tid)
        = testsTotal rid none l₁ + testsTotal rid none l₂ := by
      intro rid
      rw [calc_eq_testsTotal, hsl, testsTotal_append, testsTotal_cons]
      have hkt : keepTest rid (some tid) t = false := by
        simp only [keepTest]
        have he0 : (tid == 0) = false := by simpa using htid0
        have hid : (t.id != tid) = false := by simp [htid]
        rw [he0, hid]
        simp
      rw [hkt]
      rw [testsTotal_excl_of_not_mem rid l₁ htid0 hl₁ne,
        testsTotal_excl_of_not_mem rid l₂ htid0 hl₂ne]
      simp
    have hnn : ∀ u ∈ l₁ ++ t :: l₂, 0 ≤ u.probability := by
      intro u hu
      exact (h2 u (hsl ▸ hu)).1
    have hnp : 0 ≤ d.probability.getD t.probability := by
      rcases hp : d.probability with _ | p
      · simpa using (h2 t htmem).1
      · simpa using hv p (by simp [hp])
    -- the key bound needed whenever the updated row stays active
    have hkey : (d.isActive.getD t.isActive) = true →
        (∀ rid, rid = t.shortUrlId →
          testsTotal rid none l₁ + testsTotal rid none l₂
            + d.probability.getD t.probability ≤ 1) → True := fun _ _ => trivial
    clear hkey
    split at h
    · cases h
    · next v1 heq1 =>
      split at h
      · cases h
      · next v2 heq2 =>
        injection h with h'
        subst h'
        have hbound : (d.isActive.getD t.isActive) = true →
            ∀ rid, rid = t.shortUrlId →
            testsTotal rid none l₁ + testsTotal rid none l₂
              + d.probability.getD t.probability ≤ 1 := by
          intro hact rid hrid
          subst hrid
          rcases hia : d.isActive with _ | b
          · -- is_active not supplied: the row was already active
            rw [hia] at hact
            simp only [Option.getD_none] at hact
            rcases hp : d.probability with _ | p
            · -- probability not supplied either: fall back on the invariant
              have hold := h4 t.shortUrlId
              rw [activeSum, calc_eq_testsTotal, hsl, testsTotal_append,
                testsTotal_cons] at hold
              have hkt : keepTest t.shortUrlId none t = true := by
                simp [keepTest, hact]
              rw [hkt] at hold
              simp only [if_true] at hold
              simp only [Option.getD_none]
              linarith
            · -- probability supplied: the first validation ran and passed
              rw [hp] at heq1
              rw [hia] at heq1
              simp only [Option.getD_none, hact, if_true] at heq1
              have := validate_ok_le heq1
              rw [hexcl t.shortUrlId] at this
              simpa using this
          · rcases b with _ | _
            · -- is_active := false contradicts hact
              rw [hia] at hact
              simp at hact
            · -- is_active := true
              rcases hta : t.isActive with _ | _
              · -- inactive → active: the second validation ran and passed
                rw [hia] at heq2
                simp only [hta] at heq2
                simp only [Bool.false_eq_true, if_false] at heq2
                have := validate_ok_le heq2
                rw [hexcl t.shortUrlId] at this
                linarith
              · -- already active
                rcases hp : d.probability with _ | p
                · have hold := h4 t.shortUrlId
                  rw [activeSum, calc_eq_testsTotal, hsl, testsTotal_append,
                    testsTotal_cons] at hold
                  have hkt : keepTest t.shortUrlId none t = true := by
                    simp [keepTest, hta]
                  rw [hkt] at hold
                  simp only [if_true] at hold
                  simp only [Option.getD_none]
                  linarith
                · rw [hp] at heq1
                  rw [hia, hta] at heq1
                  simp only [Option.getD_some, if_true] at heq1
                  have := validate_ok_le heq1
                  rw [hexcl t.shortUrlId] at this
                  simpa using this
        refine ⟨h1, ?_, ?_, ?_⟩
        · intro u hu
          simp only [hmap] at hu
          rcases List.mem_append.mp hu with hu1 | hu2
          · exact h2 u (hsl ▸ List.mem_append_left _ hu1)
          · rcases List.mem_cons.mp hu2 with rfl | hu3
            · refine ⟨hnp, ?_, ?_⟩
              · simpa [htn] using (h2 t htmem).2.1
              · simpa [htn] using (h2 t htmem).2.2
            · exact h2 u (hsl ▸ List.mem_append_right _ (List.mem_cons_of_mem _ hu3))
        · simp only [hmap, List.map_append, List.map_cons]
          have : tn.id = t.id := by simp [htn]
          rw [this]
          rw [List.map_append, List.map_cons] at hnds
          exact hnds
        · intro rid
          rw [activeSum, calc_eq_testsTotal]
          simp only [hmap]
          apply sum_bound_of_replace (t := t)
          · simp [htn]
          · exact hnn
          · have hold := h4 rid
            rwa [activeSum, calc_eq_testsTotal, hsl] at hold
          · intro hact hrid
            have := hbound (by simpa [htn] using hact) rid hrid
            simpa [htn] using this

theorem inv_runStep {s : DBState} {op : AbOp}
    (hInv : Inv s) (hval : opValid op) : Inv (runStep s op) := by
  unfold runStep
  rcases hap : applyOp s op with e | s'
  · exact hInv
  · rcases op with ⟨rid, d⟩ | ⟨tid, d⟩
    · exact inv_create hInv hval.1 hap
    · exact inv_update hInv (fun p hp => (hval p hp).1) hap

theorem inv_run {s : DBState} {ops : List AbOp}
    (hInv : Inv s) (hval : ∀ op ∈ ops, opValid op) : Inv (run s ops) := by
  induction ops generalizing s with
  | nil => exact hInv
  | cons op rest ih =>
      exact ih (inv_runStep hInv (hval op (by simp)))
        (fun o ho => hval o (by simp [ho]))

theorem inv_init (su : List Nat) : Inv (initState su) := by
  refine ⟨le_refl 1, by simp [initState], by simp [initState], ?_⟩
  intro rid
  simp [activeSum, calculate_total_probability, initState]

/-- C2: starting from a fresh database, for every sequence of create/update
operations with schema-valid probabilities and every point (prefix) of the
sequence, the committed sum of active weights of every record stays ≤ 1;
an operation rejected with an `ABTestValidationError` leaves the committed
state unchanged. -/
theorem c2_active_probability_never_exceeds_one
    (su : List Nat) (ops pre suf : List AbOp)
    (hvalid : ∀ op ∈ ops, opValid op)
    (hsplit : ops = pre ++ suf) (rid : Nat) :
    activeSum (run (initState su) pre) rid ≤ 1 ∧
    (∀ op e, applyOp (run (initState su) pre) op = Except.error e →
      runStep (run (initState su) pre) op = run (initState su) pre) := by
  constructor
  · have hpre : ∀ op ∈ pre, opValid op := fun op hop =>
      hvalid op (hsplit ▸ List.mem_append_left _ hop)
    exact (inv_run (inv_init su) hpre).2.2.2 rid
  · intro op e he
    simp [runStep, he]

/-- Witness for C2 at a concrete input: one active test of weight 1 is
created; the committed active sum of record 1 stays ≤ 1. -/
theorem c2_active_probability_never_exceeds_one_witness :
    (∀ op ∈ [AbOp.create 1 ⟨"https://a", 1, true⟩], opValid op) ∧
    ([AbOp.create 1 ⟨"https://a", 1, true⟩]
        = [AbOp.create 1 ⟨"https://a", 1, true⟩] ++ ([] : List AbOp)) ∧
    activeSum (run (initState [1]) [AbOp.create 1 ⟨"https://a", 1, true⟩]) 1 ≤ 1 :=
  ⟨by simp [opValid], rfl,
    (c2_active_probability_never_exceeds_one [1]
      [AbOp.create 1 ⟨"https://a", 1, true⟩]
      [AbOp.create 1 ⟨"https://a", 1, true⟩] []
      (by simp [opValid]) rfl 1).1⟩

theorem validate_error_iff {s : DBState} {rid : Nat} {p : ℚ} {excl : Option Nat} :
    (∃ msg, validate_probability_sum s rid p excl = Except.error msg)
      ↔ calculate_total_probability s rid excl + p > 1 := by
  unfold validate_probability_sum
  simp only []
  split
  · next hgt => exact ⟨fun _ => hgt, fun _ => ⟨_, rfl⟩⟩
  · next hng =>
      constructor
      · rintro ⟨msg, hmsg⟩
        exact Except.noConfusion hmsg
      · intro hgt
        exact absurd hgt hng

theorem validate_ok_iff {s : DBState} {rid : Nat} {p : ℚ} {excl : Option Nat} :
    validate_probability_sum s rid p excl = Except.ok ()
      ↔ calculate_total_probability s rid excl + p ≤ 1 := by
  unfold validate_probability_sum
  simp only []
  split
  · next hgt =>
      constructor
      · intro hmsg
        exact Except.noConfusion hmsg
      · intro hle
        exact absurd hgt (not_lt.mpr hle)
  · next hng => exact ⟨fun _ => le_of_not_lt hng, fun _ => rfl⟩

theorem calc_eq_activeSumExcluding {s : DBState} {rid : Nat} {excl : Option Nat}
    (hz : excl ≠ some 0) :
    calculate_total_probability s rid excl = activeSumExcluding s rid excl := by
  rcases excl with _ | e
  · rfl
  · have he : e ≠ 0 := fun hc => hz (by rw [hc])
    unfold calculate_total_probability activeSumExcluding
    congr 1
    congr 1
    apply List.filter_congr
    intro t ht
    have h0 : (e == 0) = false := by simpa using he
    simp only [keepTest, h0]
    simp

/-- C6: `validate_probability_sum` raises exactly when the sum of the
record's active variants excluding the given variant plus the candidate
weight strictly exceeds 1, under exact comparison; otherwise it returns
normally (and, being read-only, changes no state).  The hypothesis rules out
the impossible exclusion id 0 (primary keys start at 1), where the code's
truthiness test `if exclude_test_id:` would skip the exclusion. -/
theorem c6_validate_probability_sum_iff
    (s : DBState) (rid : Nat) (p : ℚ) (excl : Option Nat)
    (hz : excl ≠ some 0) :
    ((∃ msg, validate_probability_sum s rid p excl = Except.error msg)
        ↔ activeSumExcluding s rid excl + p > 1) ∧
    (validate_probability_sum s rid p excl = Except.ok ()
        ↔ activeSumExcluding s rid excl + p ≤ 1) := by
  rw [← calc_eq_activeSumExcluding hz]
  exact ⟨validate_error_iff, validate_ok_iff⟩

/-- Witness for C6 at a concrete input. -/
theorem c6_validate_probability_sum_iff_witness :
    ((none : Option Nat) ≠ some 0) ∧
    ((∃ msg, validate_probability_sum ⟨[1], [⟨1, 1, "https://a", 1, true⟩], 2⟩
          1 1 none = Except.error msg)
      ↔ activeSumExcluding ⟨[1], [⟨1, 1, "https://a", 1, true⟩], 2⟩ 1 none + 1 > 1) :=
  ⟨by simp,
    (c6_validate_probability_sum_iff ⟨[1], [⟨1, 1, "https://a", 1, true⟩], 2⟩
      1 1 none (by simp)).1⟩

/-- C8: the click-id parameters are included exactly when the visit is at
most `click_id_max_age_seconds` (default 60) old, the boundary inclusive: a
visit exactly 60 seconds old is included, one 61 seconds old is not.  Naive
timestamps are read as UTC (`Visit.date` holds those UTC seconds). -/
theorem c8_click_id_window (now : Int) (v : Visit) :
    (should_include_click_id now v = true
        ↔ now - v.date ≤ click_id_max_age_seconds) ∧
    click_id_max_age_seconds = 60 ∧
    should_include_click_id now ⟨7, now - 60⟩ = true ∧
    should_include_click_id now ⟨7, now - 61⟩ = false := by
  refine ⟨?_, rfl, ?_, ?_⟩
  · simp [should_include_click_id]
  · simp only [should_include_click_id, click_id_max_age_seconds,
      decide_eq_true_eq]
    omega
  · simp only [should_include_click_id, click_id_max_age_seconds,
      decide_eq_false_iff_not]
    omega

/-- Counterexample for C9 as stated: the record "https://app/ABC" is
returned for the value "abc", yet "abc" is not a substring of the
destination template — the match is case-insensitive (`icontains`), not
plain substring; moreover the record "https://app/myXpage" is returned for
the value "my_page", which is not contained in the template even
case-insensitively — the `_` is a live LIKE wildcard (`autoescape` is
off). -/
theorem c9_resolve_url_counterexample :
    resolve_url [⟨1, "c", "https://app/ABC", none⟩] "https://app" "abc" none
      = Except.ok (some ⟨1, "c", "https://app/ABC", none⟩) ∧
    strContains "https://app/ABC" "abc" = false ∧
    resolve_url [⟨2, "c", "https://app/myXpage", none⟩] "https://app" "my_page"
        none
      = Except.ok (some ⟨2, "c", "https://app/myXpage", none⟩) ∧
    subOf (lowerChars "my_page") (lowerChars "https://app/myXpage") = false := by
  refine ⟨rfl, rfl, rfl, rfl⟩

/-- C9 (amended): every record resolve returns matches the slash-stripped
base origin as a SQL LIKE prefix pattern (`LIKE origin || '%'`, `%`/`_` in
the origin live), matches the value as a case-insensitive infix LIKE
pattern (`ILIKE '%' || value || '%'`, `%`/`_` in the value live since
`autoescape` is off), and carries exactly the requested domain scope
(`none` matches only records with no scope); resolve only reads the record
list. -/
theorem c9_resolve_url_matches_amended
    (db : List ShortUrl) (appUrl url : String) (domainId : Option Nat)
    (r : ShortUrl)
    (h : resolve_url db appUrl url domainId = Except.ok (some r)) :
    startsWithStr r.originalUrl (rstripSlash appUrl) = true ∧
    icontainsStr r.originalUrl url = true ∧
    (domainId = none → r.domainId = none) ∧
    (∀ d, domainId = some d → r.domainId = some d) := by
  unfold resolve_url at h
  split at h
  · injection h with h'
    cases h'
  · rename_i x hone
    injection h with h'
    have hxr : x = r := by injection h'
    have hx : r ∈ db.filter (matchesResolve appUrl url domainId) := by
      rw [← hxr, hone]
      simp
    have hp := (List.mem_filter.mp hx).2
    simp only [matchesResolve, Bool.and_eq_true] at hp
    obtain ⟨⟨h1, h2⟩, h3⟩ := hp
    refine ⟨h1, h2, ?_, ?_⟩
    · intro hd
      subst hd
      simpa using h3
    · intro d hd
      subst hd
      simpa using h3
  · cases h

/-- Witness for C9 (amended) at a concrete input. -/
theorem c9_resolve_url_matches_amended_witness :
    startsWithStr "https://app/abc" (rstripSlash "https://app") = true ∧
    icontainsStr "https://app/abc" "app/abc" = true ∧
    ((none : Option Nat) = none → (none : Option Nat) = none) ∧
    (∀ d, (none : Option Nat) = some d → (none : Option Nat) = some d) :=
  c9_resolve_url_matches_amended [⟨1, "c", "https://app/abc", none⟩]
    "https://app" "app/abc" none ⟨1, "c", "https://app/abc", none⟩ rfl

/-- C10: the field-to-entry-id scan resolves by case-insensitive substring
match on title or description, returning `"entry." ++ questionId` of the
first matching item with a (truthy) question id, passing over matching items
without one, and `none` when nothing matches; a title merely containing the
field name resolves, so the match is not exact-title equality. -/
theorem c10_field_lookup_substring
    (items : List FormItem) (fieldName : String)
    (env : String → FetchOutcome) (now : Int) (s : MapperState)
    (formId : String) (form : FormData) (s' : MapperState) :
    findEntry items fieldName = fieldLookupSpec items fieldName ∧
    (getForm env now s formId = (some form, s') →
      fetch_field_entry_id env now s formId fieldName
        = (fieldLookupSpec form.items fieldName, s')) ∧
    findEntry [⟨"Enter UTM_Source", "", some "123"⟩] "utm_source"
      = some "entry.123" ∧
    "Enter UTM_Source" ≠ "utm_source" := by
  have main : ∀ its : List FormItem, ∀ fn : String,
      findEntry its fn = fieldLookupSpec its fn := by
    intro its
    induction its with
    | nil => intro fn; rfl
    | cons it rest ih =>
        intro fn
        rw [fieldLookupSpec]
        by_cases hm : matchesField fn it = true
        · rcases hq : it.questionId with _ | q
          · have hpred : (matchesField fn it &&
                (match it.questionId with
                 | some q => !(q == "")
                 | none => false)) = false := by
              rw [hq]
              simp
            simp only [List.find?, hpred]
            simp only [findEntry, hm, if_true, hq]
            exact ih fn
          · by_cases hq0 : q = ""
            · have hcond : (q == "") = true := by simp [hq0]
              have hpred : (matchesField fn it &&
                  (match it.questionId with
                   | some q => !(q == "")
                   | none => false)) = false := by
                rw [hq]
                simp [hq0]
              simp only [List.find?, hpred]
              simp only [findEntry, hm, if_true, hq, hcond]
              exact ih fn
            · have hcond : (q == "") = false := by simpa using hq0
              have hpred : (matchesField fn it &&
                  (match it.questionId with
                   | some q => !(q == "")
                   | none => false)) = true := by
                rw [hq]
                simp [hm, hq0]
              simp only [List.find?, hpred]
              simp [findEntry, hm, hq, hcond]
        · have hm' : matchesField fn it = false := Bool.eq_false_iff.mpr hm
          have hpred : (matchesField fn it &&
              (match it.questionId with
               | some q => !(q == "")
               | none => false)) = false := by
            simp [hm']
          simp only [List.find?, hpred]
          simp only [findEntry, hm', Bool.false_eq_true, if_false]
          exact ih fn
  refine ⟨main items fieldName, ?_, by decide, by decide⟩
  intro hget
  unfold fetch_field_entry_id
  rw [hget]
  simp only []
  rw [main form.items fieldName]

/-- Witness for C10 at a concrete input: a fresh mapper state with a
successful fetch. -/
theorem c10_field_lookup_substring_witness :
    fetch_field_entry_id
        (fun _ => FetchOutcome.success ⟨[⟨"Enter UTM_Source", "", some "123"⟩]⟩)
        0 initMapperState "f" "utm_source"
      = (fieldLookupSpec [⟨"Enter UTM_Source", "", some "123"⟩] "utm_source",
         ⟨[], [("f", (⟨[⟨"Enter UTM_Source", "", some "123"⟩]⟩, 0))], 15 * 60, 2 * 60⟩) :=
  (c10_field_lookup_substring [] "utm_source"
    (fun _ => FetchOutcome.success ⟨[⟨"Enter UTM_Source", "", some "123"⟩]⟩)
    0 initMapperState "f" ⟨[⟨"Enter UTM_Source", "", some "123"⟩]⟩
    ⟨[], [("f", (⟨[⟨"Enter UTM_Source", "", some "123"⟩]⟩, 0))], 15 * 60, 2 * 60⟩).2.1
    rfl

/-- C7: a field-entry cache binding fetched at time `t` with TTL `Δ` is
served from the in-memory cache at `t + Δ - ε` (for every fetch environment,
hence with no external contact, and with the state unchanged), while a read
at `t + Δ + ε` deletes the stale binding and takes the fetch-and-repopulate
path; the default TTLs are 15 minutes for field entries and 2 minutes for
the raw form schema. -/
theorem c7_field_cache_ttl
    (env : String → FetchOutcome) (s : MapperState)
    (formId fieldName entryId : String) (t ε : Int)
    (hc : lookupAssoc s.cache (formId, fieldName) = some (entryId, t))
    (hε : 0 < ε) :
    get_field_entry_id env (t + s.cacheTtl - ε) s formId fieldName
      = (some entryId, s) ∧
    get_field_entry_id env (t + s.cacheTtl + ε) s formId fieldName
      = fetchAndCacheEntry env (t + s.cacheTtl + ε)
          { s with cache := eraseAssoc s.cache (formId, fieldName) }
          formId fieldName ∧
    initMapperState.cacheTtl = 15 * 60 ∧
    initMapperState.formCacheTtl = 2 * 60 := by
  refine ⟨?_, ?_, rfl, rfl⟩
  · unfold get_field_entry_id
    rw [hc]
    simp only []
    rw [if_pos (by omega)]
  · unfold get_field_entry_id
    rw [hc]
    simp only []
    rw [if_neg (by omega)]

/-- Witness for C7 at a concrete input: a cached entry at time 0 with the
default TTL (900 s) is served at time 899 for a failing environment. -/
theorem c7_field_cache_ttl_witness :
    get_field_entry_id (fun _ => FetchOutcome.httpError) (0 + 900 - 1)
        ⟨[(("f", "utm_source"), ("entry.1", 0))], [], 900, 120⟩ "f" "utm_source"
      = (some "entry.1", ⟨[(("f", "utm_source"), ("entry.1", 0))], [], 900, 120⟩) :=
  (c7_field_cache_ttl (fun _ => FetchOutcome.httpError)
    ⟨[(("f", "utm_source"), ("entry.1", 0))], [], 900, 120⟩
    "f" "utm_source" "entry.1" 0 1 rfl (by decide)).1

theorem add_gfp_inaccessible {mapper : FormsMapperApi}
    (hm : ∀ f, mapper.isFormAccessible f = false)
    (forms : List GoogleForm) (targetUrl : String)
    (params queryParams : List (String × String))
    (lastVisit : Option Visit) (now : Int) :
    add_google_forms_params mapper forms targetUrl params queryParams
      lastVisit now = (params, queryParams) := by
  rcases hx : extract_form_id targetUrl with _ | rid
  · simp [add_google_forms_params, hx]
  · rcases hg : lookupGoogleForm forms rid with _ | gf
    · simp [add_google_forms_params, hx, hg]
    · simp [add_google_forms_params, hx, hg, hm gf.formId]

/-- C5: the form fetch is total and fail-open — under any failing
environment (with no fresh cached schema) `_get_form` returns `none` with
the state intact, the field lookup likewise returns `none`, and `build_url`
still returns a URL: with the forms branch degraded it equals the URL built
with the branch disabled, i.e. without any prefill parameters. -/
theorem c5_fetch_fail_open
    (env : String → FetchOutcome) (now : Int) (s : MapperState)
    (hfail : ∀ fid d, env fid ≠ FetchOutcome.success d)
    (hempty : s.formCache = [])
    (forms : List GoogleForm) (targetUrl : String) (forwardQuery : Bool)
    (queryParams : List (String × String)) (lastVisit : Option Visit)
    (hasDb : Bool) :
    (∀ formId, getForm env now s formId = (none, s)) ∧
    (∀ formId fieldName,
      fetch_field_entry_id env now s formId fieldName = (none, s)) ∧
    build_url (mapperOf env now s) forms targetUrl forwardQuery queryParams
        lastVisit true hasDb now
      = build_url (mapperOf env now s) forms targetUrl forwardQuery queryParams
        lastVisit false hasDb now := by
  have hget : ∀ formId, getForm env now s formId = (none, s) := by
    intro fid
    unfold getForm
    rw [hempty]
    simp only [lookupAssoc]
    unfold fetchForm
    rcases he : env fid with d | _ | _
    · exact absurd he (hfail fid d)
    · rfl
    · rfl
  have hacc : ∀ f, (mapperOf env now s).isFormAccessible f = false := by
    intro f
    simp [mapperOf, is_form_accessible, hget f]
  have hbp : buildParams (mapperOf env now s) forms targetUrl forwardQuery
      queryParams lastVisit true hasDb now
      = buildParams (mapperOf env now s) forms targetUrl forwardQuery
        queryParams lastVisit false hasDb now := by
    unfold buildParams
    simp only [Bool.true_and, Bool.false_and, Bool.false_eq_true, if_false]
    by_cases hcc : (strContains targetUrl "docs.google.com/forms" && hasDb) = true
    · rw [if_pos hcc, add_gfp_inaccessible hacc]
    · rw [if_neg (by simpa using hcc)]
  refine ⟨hget, ?_, ?_⟩
  · intro fid fn
    unfold fetch_field_entry_id
    rw [hget fid]
  · unfold build_url
    rw [hbp]

/-- Witness for C5 at a concrete input: with every fetch failing, the
Google-Forms URL is built exactly as if the forms branch were disabled. -/
theorem c5_fetch_fail_open_witness :
    build_url (mapperOf (fun _ => FetchOutcome.httpError) 0 initMapperState)
        [⟨"editid", "respid"⟩]
        "https://docs.google.com/forms/d/e/respid/viewform" true
        [("utm_source", "tw")] none true true 0
      = build_url (mapperOf (fun _ => FetchOutcome.httpError) 0 initMapperState)
        [⟨"editid", "respid"⟩]
        "https://docs.google.com/forms/d/e/respid/viewform" true
        [("utm_source", "tw")] none false true 0 :=
  (c5_fetch_fail_open (fun _ => FetchOutcome.httpError) 0 initMapperState
    (fun fid d h => FetchOutcome.noConfusion h) rfl
    [⟨"editid", "respid"⟩] "https://docs.google.com/forms/d/e/respid/viewform"
    true [("utm_source", "tw")] none true).2.2

theorem lookupAssoc_erase_self {κ ν : Type} [BEq κ] [LawfulBEq κ]
    (l : List (κ × ν)) (key : κ) :
    lookupAssoc (eraseAssoc l key) key = none := by
  induction l with
  | nil => rfl
  | cons kv rest ih =>
      rcases kv with ⟨k, v⟩
      by_cases hk : (k == key) = true
      · simp [eraseAssoc, hk, ih]
      · have hk' : (k == key) = false := Bool.eq_false_iff.mpr hk
        simp [eraseAssoc, lookupAssoc, hk', ih]

theorem lookupAssoc_erase_other {κ ν : Type} [BEq κ] [LawfulBEq κ]
    (l : List (κ × ν)) (key k : κ) (h : key ≠ k) :
    lookupAssoc (eraseAssoc l key) k = lookupAssoc l k := by
  induction l with
  | nil => rfl
  | cons kv rest ih =>
      rcases kv with ⟨k', v⟩
      by_cases h1 : (k' == key) = true
      · have hk : k' = key := eq_of_beq h1
        have h2 : (k' == k) = false := by
          subst hk
          simpa using h
        simp [eraseAssoc, h1, lookupAssoc, h2, ih]
      · have h1' : (k' == key) = false := Bool.eq_false_iff.mpr h1
        simp [eraseAssoc, h1', lookupAssoc, ih]

theorem lookupAssoc_insert_self {κ ν : Type} [BEq κ] [LawfulBEq κ]
    (l : List (κ × ν)) (key : κ) (v : ν) :
    lookupAssoc (insertAssoc l key v) key = some v := by
  induction l with
  | nil => simp [insertAssoc, lookupAssoc]
  | cons kv rest ih =>
      rcases kv with ⟨k', w⟩
      by_cases h1 : (k' == key) = true
      · simp [insertAssoc, h1, lookupAssoc]
      · have h1' : (k' == key) = false := Bool.eq_false_iff.mpr h1
        simp [insertAssoc, h1', lookupAssoc, ih]

theorem lookupAssoc_insert_other {κ ν : Type} [BEq κ] [LawfulBEq κ]
    (l : List (κ × ν)) (key : κ) (v : ν) (k : κ) (h : key ≠ k) :
    lookupAssoc (insertAssoc l key v) k = lookupAssoc l k := by
  induction l with
  | nil =>
      have h2 : (key == k) = false := by simpa using h
      simp [insertAssoc, lookupAssoc, h2]
  | cons kv rest ih =>
      rcases kv with ⟨k', w⟩
      by_cases h1 : (k' == key) = true
      · have hk : k' = key := eq_of_beq h1
        subst hk
        have h2 : (k' == k) = false := by simpa using h
        simp [insertAssoc, lookupAssoc, h2]
      · have h1' : (k' == key) = false := Bool.eq_false_iff.mpr h1
        simp [insertAssoc, h1', lookupAssoc, ih]

theorem mapUtm_snd_self (mapper : FormsMapperApi) (fid name : String)
    (pq : List (String × String) × List (String × String)) :
    lookupAssoc (mapUtmParam mapper fid name pq).2 name = none := by
  unfold mapUtmParam
  rcases hl : lookupAssoc pq.2 name with _ | v
  · exact hl
  · simp only []
    exact lookupAssoc_erase_self _ _

theorem mapUtm_snd_other (mapper : FormsMapperApi) (fid name name' : String)
    (pq : List (String × String) × List (String × String))
    (h : name ≠ name') :
    lookupAssoc (mapUtmParam mapper fid name pq).2 name'
      = lookupAssoc pq.2 name' := by
  unfold mapUtmParam
  rcases hl : lookupAssoc pq.2 name with _ | v
  · rfl
  · simp only []
    exact lookupAssoc_erase_other _ _ _ h

theorem mapUtm_fst_entry_ne (mapper : FormsMapperApi) (fid name : String)
    (pq : List (String × String) × List (String × String)) (name' : String)
    (hne : ∀ e, ("entry." ++ e) ≠ name') :
    lookupAssoc (mapUtmParam mapper fid name pq).1 name'
      = lookupAssoc pq.1 name' := by
  unfold mapUtmParam
  rcases hl : lookupAssoc pq.2 name with _ | v
  · rfl
  · simp only []
    rcases hr : mapper.getFieldEntryId fid name with _ | e
    · rfl
    · simp only []
      exact lookupAssoc_insert_other _ _ _ _ (hne e)

theorem mapUtm_fst_insert (mapper : FormsMapperApi) (fid name : String)
    (pq : List (String × String) × List (String × String)) (v e : String)
    (hv : lookupAssoc pq.2 name = some v)
    (he : mapper.getFieldEntryId fid name = some e) :
    lookupAssoc (mapUtmParam mapper fid name pq).1 ("entry." ++ e) = some v := by
  unfold mapUtmParam
  rw [hv]
  simp only []
  rw [he]
  simp only []
  exact lookupAssoc_insert_self _ _ _

theorem entry_key_ne_of_head (e : String) (name : String)
    (h : ("entry." ++ e).toList.head? ≠ name.toList.head?) :
    ("entry." ++ e) ≠ name := by
  intro hc
  exact h (by rw [hc])

theorem entry_key_head (e : String) : ("entry." ++ e).toList.head? = some 'e' := by
  cases e with
  | mk data => rfl

theorem entry_key_ne_utm (e : String) (name : String)
    (h : name.toList.head? = some 'u') : ("entry." ++ e) ≠ name :=
  entry_key_ne_of_head e name (by rw [entry_key_head, h]; decide)

theorem string_append_left_cancel {a b c : String} (h : a ++ b = a ++ c) :
    b = c := by
  cases a with | mk la =>
  cases b with | mk lb =>
  cases c with | mk lc =>
  have h' : la ++ lb = la ++ lc := congrArg String.data h
  have h'' : lb = lc := List.append_cancel_left h'
  rw [h'']

theorem entry_ne_entry_of_resolve_ne {f : Option String} {e : String}
    (hne : f ≠ some e) :
    ∀ e', f = some e' → ("entry." ++ e') ≠ ("entry." ++ e) := by
  intro e' he' hc
  have he : e' = e := string_append_left_cancel hc
  exact hne (he ▸ he')

theorem mapUtm_fst_preserve_entry (mapper : FormsMapperApi) (fid m : String)
    (pq : List (String × String) × List (String × String)) (e : String)
    (hm : mapper.getFieldEntryId fid m ≠ some e) :
    lookupAssoc (mapUtmParam mapper fid m pq).1 ("entry." ++ e)
      = lookupAssoc pq.1 ("entry." ++ e) := by
  unfold mapUtmParam
  rcases hl : lookupAssoc pq.2 m with _ | v
  · rfl
  · simp only []
    rcases hr : mapper.getFieldEntryId fid m with _ | e'
    · rfl
    · simp only []
      exact lookupAssoc_insert_other _ _ _ _
        (entry_ne_entry_of_resolve_ne hm e' hr)

theorem addClick_snd (mapper : FormsMapperApi) (fid : String)
    (pq : List (String × String) × List (String × String))
    (lastVisit : Option Visit) (now : Int) :
    (addClickParams mapper fid pq lastVisit now).2 = pq.2 := by
  unfold addClickParams
  rcases lastVisit with _ | v
  · rfl
  · by_cases hinc : should_include_click_id now v = true
    · simp only [hinc, if_true]
    · simp only [Bool.eq_false_iff.mpr hinc, Bool.false_eq_true, if_false]

theorem addClick_fst_preserve (mapper : FormsMapperApi) (fid : String)
    (pq : List (String × String) × List (String × String))
    (lastVisit : Option Visit) (now : Int) (k : String)
    (h1 : ∀ e, mapper.getFieldEntryId fid "click_id" = some e →
      ("entry." ++ e) ≠ k)
    (h2 : ∀ e, mapper.getFieldEntryId fid "click_timestamp" = some e →
      ("entry." ++ e) ≠ k) :
    lookupAssoc (addClickParams mapper fid pq lastVisit now).1 k
      = lookupAssoc pq.1 k := by
  unfold addClickParams
  rcases lastVisit with _ | v
  · rfl
  · by_cases hinc : should_include_click_id now v = true
    · simp only [hinc, if_true]
      rcases hc1 : mapper.getFieldEntryId fid "click_id" with _ | e1 <;>
        rcases hc2 : mapper.getFieldEntryId fid "click_timestamp" with _ | e2 <;>
          simp only []
      · exact lookupAssoc_insert_other _ _ _ _ (h2 e2 hc2)
      · exact lookupAssoc_insert_other _ _ _ _ (h1 e1 hc1)
      · rw [lookupAssoc_insert_other _ _ _ _ (h2 e2 hc2),
          lookupAssoc_insert_other _ _ _ _ (h1 e1 hc1)]
    · simp only [Bool.eq_false_iff.mpr hinc, Bool.false_eq_true, if_false]

/-- Counterexample for C4 as stated: with forwarding enabled, utm_source is
present in the request, its entry id resolves, the entry-keyed value is
added — and yet the original `utm_source` parameter still appears in the
final URL (it was merged into the final parameters before the forms branch,
which deletes it only from the forwarded dict). -/
theorem c4_forms_param_consumption_counterexample :
    build_url ⟨fun _ => true, fun _ n => if n == "utm_source" then some "123" else none⟩
        [⟨"editid", "respid"⟩] "https://docs.google.com/forms/d/e/respid/viewform"
        true [("utm_source", "tw")] none true true 0
      = "https://docs.google.com/forms/d/e/respid/viewform?utm_source=tw&entry.123=tw" ∧
    lookupAssoc (buildParams
        ⟨fun _ => true, fun _ n => if n == "utm_source" then some "123" else none⟩
        [⟨"editid", "respid"⟩] "https://docs.google.com/forms/d/e/respid/viewform"
        true [("utm_source", "tw")] none true true 0) "utm_source" = some "tw" ∧
    (⟨fun _ => true, fun _ n => if n == "utm_source" then some "123" else none⟩
        : FormsMapperApi).getFieldEntryId "editid" "utm_source" = some "123" :=
  ⟨rfl, rfl, rfl⟩

/-- C4 (amended): whenever the forms branch runs, each of
utm_source/utm_medium/utm_campaign is always removed from the
forwarded-parameter dict; for such a parameter whose entry id resolves to
`e`, its value is assigned to the final parameters under the key
`"entry." ++ e` — and remains there provided no later mapping of the same
run (a later utm name, or the click-id/timestamp fields) resolves to the
same entry id, since a later assignment to the same key overwrites it; the
branch never touches the parameters' original keys in the final map, which
was populated before the branch ran, so the original name still appears in
the final URL exactly when forwarding is enabled, and with forwarding
disabled it does not appear. -/
theorem c4_forms_param_handling_amended
    (mapper : FormsMapperApi) (forms : List GoogleForm) (targetUrl : String)
    (params queryParams : List (String × String)) (lastVisit : Option Visit)
    (now : Int) (rid : String) (gf : GoogleForm)
    (hx : extract_form_id targetUrl = some rid)
    (hg : lookupGoogleForm forms rid = some gf)
    (hacc : mapper.isFormAccessible gf.formId = true) :
    (∀ name, name = "utm_source" ∨ name = "utm_medium" ∨ name = "utm_campaign" →
      lookupAssoc (add_google_forms_params mapper forms targetUrl params
          queryParams lastVisit now).2 name = none) ∧
    (∀ name, name = "utm_source" ∨ name = "utm_medium" ∨ name = "utm_campaign" →
      lookupAssoc (add_google_forms_params mapper forms targetUrl params
          queryParams lastVisit now).1 name = lookupAssoc params name) ∧
    (∀ v e, lookupAssoc queryParams "utm_source" = some v →
      mapper.getFieldEntryId gf.formId "utm_source" = some e →
      mapper.getFieldEntryId gf.formId "utm_medium" ≠ some e →
      mapper.getFieldEntryId gf.formId "utm_campaign" ≠ some e →
      mapper.getFieldEntryId gf.formId "click_id" ≠ some e →
      mapper.getFieldEntryId gf.formId "click_timestamp" ≠ some e →
      lookupAssoc (add_google_forms_params mapper forms targetUrl params
          queryParams lastVisit now).1 ("entry." ++ e) = some v) ∧
    (∀ v e, lookupAssoc queryParams "utm_medium" = some v →
      mapper.getFieldEntryId gf.formId "utm_medium" = some e →
      mapper.getFieldEntryId gf.formId "utm_campaign" ≠ some e →
      mapper.getFieldEntryId gf.formId "click_id" ≠ some e →
      mapper.getFieldEntryId gf.formId "click_timestamp" ≠ some e →
      lookupAssoc (add_google_forms_params mapper forms targetUrl params
          queryParams lastVisit now).1 ("entry." ++ e) = some v) ∧
    (∀ v e, lookupAssoc queryParams "utm_campaign" = some v →
      mapper.getFieldEntryId gf.formId "utm_campaign" = some e →
      mapper.getFieldEntryId gf.formId "click_id" ≠ some e →
      mapper.getFieldEntryId gf.formId "click_timestamp" ≠ some e →
      lookupAssoc (add_google_forms_params mapper forms targetUrl params
          queryParams lastVisit now).1 ("entry." ++ e) = some v) ∧
    buildParams ⟨fun _ => true, fun _ n => if n == "utm_source" then some "123" else none⟩
        [⟨"editid", "respid"⟩] "https://docs.google.com/forms/d/e/respid/viewform"
        true [("utm_source", "tw")] none true true 0
      = [("utm_source", "tw"), ("entry.123", "tw")] ∧
    buildParams ⟨fun _ => true, fun _ n => if n == "utm_source" then some "123" else none⟩
        [⟨"editid", "respid"⟩] "https://docs.google.com/forms/d/e/respid/viewform"
        false [("utm_source", "tw")] none true true 0
      = [("entry.123", "tw")] := by
  have hadd : add_google_forms_params mapper forms targetUrl params queryParams
      lastVisit now
      = addClickParams mapper gf.formId
          (mapUtmParam mapper gf.formId "utm_campaign"
            (mapUtmParam mapper gf.formId "utm_medium"
              (mapUtmParam mapper gf.formId "utm_source" (params, queryParams))))
          lastVisit now := by
    unfold add_google_forms_params
    rw [hx]
    simp only []
    rw [hg]
    simp only []
    rw [hacc]
    simp only [if_true]
  refine ⟨?_, ?_, ?_, ?_, ?_, rfl, rfl⟩
  · intro name hname
    rw [hadd, addClick_snd]
    rcases hname with rfl | rfl | rfl
    · rw [mapUtm_snd_other mapper gf.formId "utm_campaign" "utm_source" _ (by decide),
        mapUtm_snd_other mapper gf.formId "utm_medium" "utm_source" _ (by decide)]
      exact mapUtm_snd_self mapper gf.formId "utm_source" (params, queryParams)
    · rw [mapUtm_snd_other mapper gf.formId "utm_campaign" "utm_medium" _ (by decide)]
      exact mapUtm_snd_self mapper gf.formId "utm_medium" _
    · exact mapUtm_snd_self mapper gf.formId "utm_campaign" _
  · intro name hname
    have hh : name.toList.head? = some 'u' := by
      rcases hname with rfl | rfl | rfl <;> rfl
    rw [hadd,
      addClick_fst_preserve mapper gf.formId _ lastVisit now name
        (fun e _ => entry_key_ne_utm e name hh)
        (fun e _ => entry_key_ne_utm e name hh),
      mapUtm_fst_entry_ne mapper gf.formId "utm_campaign" _ name
        (fun e => entry_key_ne_utm e name hh),
      mapUtm_fst_entry_ne mapper gf.formId "utm_medium" _ name
        (fun e => entry_key_ne_utm e name hh),
      mapUtm_fst_entry_ne mapper gf.formId "utm_source" _ name
        (fun e => entry_key_ne_utm e name hh)]
  · intro v e hv he hmed hcamp hcid hcts
    rw [hadd,
      addClick_fst_preserve mapper gf.formId _ lastVisit now ("entry." ++ e)
        (entry_ne_entry_of_resolve_ne hcid)
        (entry_ne_entry_of_resolve_ne hcts),
      mapUtm_fst_preserve_entry mapper gf.formId "utm_campaign" _ e hcamp,
      mapUtm_fst_preserve_entry mapper gf.formId "utm_medium" _ e hmed]
    exact mapUtm_fst_insert mapper gf.formId "utm_source" (params, queryParams)
      v e hv he
  · intro v e hv he hcamp hcid hcts
    rw [hadd,
      addClick_fst_preserve mapper gf.formId _ lastVisit now ("entry." ++ e)
        (entry_ne_entry_of_resolve_ne hcid)
        (entry_ne_entry_of_resolve_ne hcts),
      mapUtm_fst_preserve_entry mapper gf.formId "utm_campaign" _ e hcamp]
    apply mapUtm_fst_insert
    · rw [mapUtm_snd_other mapper gf.formId "utm_source" "utm_medium" _ (by decide)]
      exact hv
    · exact he
  · intro v e hv he hcid hcts
    rw [hadd,
      addClick_fst_preserve mapper gf.formId _ lastVisit now ("entry." ++ e)
        (entry_ne_entry_of_resolve_ne hcid)
        (entry_ne_entry_of_resolve_ne hcts)]
    apply mapUtm_fst_insert
    · rw [mapUtm_snd_other mapper gf.formId "utm_medium" "utm_campaign" _ (by decide),
        mapUtm_snd_other mapper gf.formId "utm_source" "utm_campaign" _ (by decide)]
      exact hv
    · exact he

/-- Witness for C4 (amended) at a concrete input: the forms branch runs and
utm_source is gone from the forwarded dict afterwards. -/
theorem c4_forms_param_handling_amended_witness :
    lookupAssoc (add_google_forms_params
        ⟨fun _ => true, fun _ n => if n == "utm_source" then some "123" else none⟩
        [⟨"editid", "respid"⟩] "https://docs.google.com/forms/d/e/respid/viewform"
        [] [("utm_source", "tw")] none 0).2 "utm_source" = none :=
  (c4_forms_param_handling_amended
    ⟨fun _ => true, fun _ n => if n == "utm_source" then some "123" else none⟩
    [⟨"editid", "respid"⟩] "https://docs.google.com/forms/d/e/respid/viewform"
    [] [("utm_source", "tw")] none 0 "respid" ⟨"editid", "respid"⟩
    rfl rfl rfl).1 "utm_source" (Or.inl rfl)

end ShlinkAB
